import Mathlib

set_option maxRecDepth 16384

/-!
Verification development for the frame-based image transmission system
(`Transmitter.py` / `Receiver.py`).

The byte-level protocol, the sender-side chunk splitter
(`TransmitterApp.generate_frames_from_file`), the receiver-side grid
reconstruction engine (`ReceiverApp._handle_client_connection`), the
exact-read helper (`ReceiverApp._recv_all`) and the live-feed slot
assignment policy (`ReceiverApp._update_live_feed_display`) are embedded
shallowly: byte strings are `List Nat`, Python `dict` keyed by `(row, col)`
is an insertion-ordered association list, Python's `-1` sentinels are `Int`,
and Python exceptions are `Except` / `Option` failures.
-/

/-- Module constant `header_size = 10` shared by both programs. -/
def header_size : Nat := 10

/-- Embedding of Python `n.to_bytes(2, 'big')`: two big-endian bytes, raising
`OverflowError` (modelled as `none`) when the value does not fit 16 bits. -/
def toBytes2 (n : Nat) : Option (List Nat) :=
  if n < 65536 then some [n / 256, n % 256] else none

/-- Embedding of Python `int.from_bytes(bs, 'big')`. -/
def bytesToNat (bs : List Nat) : Nat :=
  bs.foldl (fun acc b => acc * 256 + b) 0

/-- Embedding of the Python slice `l[a:b]` (with clamping semantics). -/
def pySlice (l : List Nat) (a b : Nat) : List Nat :=
  (l.drop a).take (b - a)

/-! ## Transmitter: chunk splitter (`generate_frames_from_file`, lines 122-169) -/

/-- Failure modes of frame generation: the explicit `chunk_size <= 0` check
(configuration error), `to_bytes` overflow (`OverflowError`), and `i // cols`
with `cols = 0` (`ZeroDivisionError`). -/
inductive GenError where
  | configError
  | overflowError
  | zeroDivisionError
deriving DecidableEq

instance {e a : Type} [DecidableEq e] [DecidableEq a] : DecidableEq (Except e a) :=
  fun x y =>
    match x, y with
    | .error u, .error v =>
      if h : u = v then isTrue (by rw [h]) else isFalse (fun hc => h (Except.error.inj hc))
    | .error _, .ok _ => isFalse (fun hc => Except.noConfusion hc)
    | .ok _, .error _ => isFalse (fun hc => Except.noConfusion hc)
    | .ok u, .ok v =>
      if h : u = v then isTrue (by rw [h]) else isFalse (fun hc => h (Except.ok.inj hc))

/-- Chunk number `i` of the file bytes: `file_bytes[i*chunk_size:(i+1)*chunk_size]`
zero-padded on the right to exactly `chunk_size` bytes
(`chunk = raw_chunk + b'\x00' * (chunk_size - len(raw_chunk))`). -/
def chunkAt (file_bytes : List Nat) (chunk_size i : Nat) : List Nat :=
  let raw := (file_bytes.drop (i * chunk_size)).take chunk_size
  raw ++ List.replicate (chunk_size - raw.length) 0

/-- The 10-byte header
`i.to_bytes(2) + row.to_bytes(2) + col.to_bytes(2) + total.to_bytes(2) + b'\x00\x00'`. -/
def mkHeader (i row col total : Nat) : Option (List Nat) := do
  let bi ← toBytes2 i
  let br ← toBytes2 row
  let bc ← toBytes2 col
  let bt ← toBytes2 total
  pure (bi ++ br ++ bc ++ bt ++ [0, 0])

/-- One generated frame: header plus padded chunk, with
`row, col = i // cols, i % cols`. -/
def mkFrame (file_bytes : List Nat) (chunk_size cols total i : Nat) :
    Except GenError (List Nat) :=
  if cols = 0 then .error .zeroDivisionError
  else
    match mkHeader i (i / cols) (i % cols) total with
    | none => .error .overflowError
    | some h => .ok (h ++ chunkAt file_bytes chunk_size i)

/-- Embedding of `generate_frames_from_file`: `chunk_size = total_frame_size -
header_size`, abort when `chunk_size <= 0`, else
`total_frames = (len(file_bytes) + chunk_size - 1) // chunk_size` frames
produced in order `i = 0 .. total_frames - 1`. -/
def generate_frames (file_bytes : List Nat) (total_frame_size cols : Nat) :
    Except GenError (List (List Nat)) :=
  let chunk_size := total_frame_size - header_size
  if chunk_size ≤ 0 then .error .configError
  else
    let total_frames := (file_bytes.length + chunk_size - 1) / chunk_size
    (List.range' 0 total_frames).mapM (mkFrame file_bytes chunk_size cols total_frames)

/-! ## Receiver: grid reconstruction engine (`_handle_client_connection`) -/

/-- Header field `header[2:4]` (row) of a received frame, where
`header = full_frame_data[:10]`. -/
def frow (frame : List Nat) : Nat :=
  bytesToNat (pySlice (pySlice frame 0 header_size) 2 4)

/-- Header field `header[4:6]` (col). -/
def fcol (frame : List Nat) : Nat :=
  bytesToNat (pySlice (pySlice frame 0 header_size) 4 6)

/-- Header field `header[6:8]` (total_frames). -/
def ftot (frame : List Nat) : Nat :=
  bytesToNat (pySlice (pySlice frame 0 header_size) 6 8)

/-- The chunk payload `full_frame_data[10:]`. -/
def fchunk (frame : List Nat) : List Nat :=
  frame.drop header_size

/-- Grid key `(row_idx, col_idx)` parsed from a frame. -/
def fkey (frame : List Nat) : Nat × Nat :=
  (frow frame, fcol frame)

/-- Insertion into the `frame_grid` dictionary: replacing assignment for an
existing key keeps its position, a new key is appended (Python `dict` order). -/
def gridInsert (g : List ((Nat × Nat) × List Nat)) (key : Nat × Nat) (v : List Nat) :
    List ((Nat × Nat) × List Nat) :=
  match g with
  | [] => [(key, v)]
  | (k, w) :: rest =>
    if k = key then (key, v) :: rest else (k, w) :: gridInsert rest key v

/-- Dictionary lookup in the `frame_grid`. -/
def gridLookup (g : List ((Nat × Nat) × List Nat)) (key : Nat × Nat) :
    Option (List Nat) :=
  match g with
  | [] => none
  | (k, w) :: rest => if k = key then some w else gridLookup rest key

/-- Per-session mutable state of the reception loop: the `frame_grid`
dictionary, `max_row`, `max_col` and `total_frames_expected` (all three
initialised to `-1`), plus a count of the total-frames mismatch warnings
logged. -/
structure EngineState where
  frame_grid : List ((Nat × Nat) × List Nat)
  max_row : Int
  max_col : Int
  total_frames_expected : Int
  mismatch_warnings : Nat
deriving DecidableEq

/-- State at the start of the reception loop. -/
def initState : EngineState :=
  { frame_grid := []
    max_row := -1
    max_col := -1
    total_frames_expected := -1
    mismatch_warnings := 0 }

/-- Processing of one received frame body: parse the header fields, record
`total_frames_expected` from the first frame (warn on later disagreement),
store the chunk under `(row_idx, col_idx)` and update `max_row` / `max_col`. -/
def process_frame (s : EngineState) (frame : List Nat) : EngineState :=
  { frame_grid := gridInsert s.frame_grid (frow frame, fcol frame) (fchunk frame)
    max_row := max s.max_row (frow frame : Int)
    max_col := max s.max_col (fcol frame : Int)
    total_frames_expected :=
      if s.total_frames_expected = -1 then (ftot frame : Int)
      else s.total_frames_expected
    mismatch_warnings :=
      if s.total_frames_expected = -1 then s.mismatch_warnings
      else if s.total_frames_expected = (ftot frame : Int) then s.mismatch_warnings
      else s.mismatch_warnings + 1 }

/-- The reception loop at frame granularity: frames are consumed in order
until the stream ends, breaking early as soon as the number of distinct grid
keys equals `total_frames_expected`
(`if self.total_frames_received_for_current_image == total_frames_expected: break`). -/
def run_engine (s : EngineState) : List (List Nat) → EngineState
  | [] => s
  | f :: rest =>
    let s' := process_frame s f
    if (s'.frame_grid.length : Int) = s'.total_frames_expected then s'
    else run_engine s' rest

/-- Row-major reconstruction: for `r in range(max_row + 1)`, for
`c in range(max_col + 1)`, concatenate the stored chunk, substituting empty
bytes for a missing `(r, c)`. -/
def reconstruct (s : EngineState) : List Nat :=
  ((List.range' 0 (s.max_row + 1).toNat).map (fun r =>
    ((List.range' 0 (s.max_col + 1).toNat).map (fun c =>
      match gridLookup s.frame_grid (r, c) with
      | some chunk => chunk
      | none => [])).flatten)).flatten

/-- End-to-end result of feeding a list of frame bodies to the engine:
reconstruction runs exactly when
`total_frames_expected > 0 and received_count == total_frames_expected`
holds after the loop; otherwise the session ends as an incomplete transfer. -/
def engine_output (frames : List (List Nat)) : Option (List Nat) :=
  let s := run_engine initState frames
  if 0 < s.total_frames_expected ∧ (s.frame_grid.length : Int) = s.total_frames_expected
  then some (reconstruct s) else none

/-- Splitter followed by reconstruction engine (the round-trip pipeline). -/
def splitThenReconstruct (file_bytes : List Nat) (total_frame_size cols : Nat) :
    Option (List Nat) :=
  match generate_frames file_bytes total_frame_size cols with
  | .ok frames => engine_output frames
  | .error _ => none

/-! ## Receiver: byte-stream session layer (`_recv_all` and the handshake) -/

/-- Specification-level view of `_recv_all(conn, n)` on a byte stream: exactly
the first `n` bytes together with the remaining stream, or `none` when the
connection closes first. The theorem for claim C10 proves that the faithful
packet-by-packet loop `recv_all_impl` always agrees with this. -/
def recv_all (stream : List Nat) (n : Nat) : Option (List Nat × List Nat) :=
  if n ≤ stream.length then some (stream.take n, stream.drop n) else none

/-- Faithful embedding of the `_recv_all` loop. `sizes` is an oracle for how
many bytes each `sock.recv(k)` call delivers (TCP chunking): a call returns at
least one byte (and at most `k`, and at most what the stream still holds)
unless the stream is exhausted, in which case it returns `b''` and the loop
returns `None`, discarding the partial `data`. -/
def recv_all_impl (sizes : List Nat) (stream : List Nat) (n : Nat) (data : List Nat) :
    Option (List Nat × List Nat) :=
  if data.length < n then
    match stream with
    | [] => none
    | b :: rest =>
      let t := min (min (sizes.headD 0 + 1) (n - data.length)) (b :: rest).length
      recv_all_impl sizes.tail ((b :: rest).drop t) n (data ++ (b :: rest).take t)
  else some (data, stream)
  termination_by stream.length
  decreasing_by
    simp only [List.length_drop]
    have h1 : 1 ≤ min (min (sizes.headD 0 + 1) (n - data.length)) (b :: rest).length := by
      rw [Nat.le_min, Nat.le_min]
      refine ⟨⟨Nat.succ_le_succ (Nat.zero_le _), ?_⟩, ?_⟩
      · omega
      · simp
    simp only [List.length_cons] at h1 ⊢
    omega

/-- The frame reception loop of `_handle_client_connection` at byte-stream
granularity: read exactly `data_size` bytes per frame, stop on a short read
(client disconnected, `_recv_all` returns `None`) or on an empty read
(`if not full_frame_data: break`, possible only for `data_size = 0`), break
early when the distinct-position count reaches `total_frames_expected`.
Returns the final engine state and the unconsumed remainder of the stream. -/
def read_frames (stream : List Nat) (data_size : Nat) (s : EngineState) :
    EngineState × List Nat :=
  if h : 1 ≤ data_size ∧ data_size ≤ stream.length then
    let s' := process_frame s (stream.take data_size)
    if (s'.frame_grid.length : Int) = s'.total_frames_expected
    then (s', stream.drop data_size)
    else read_frames (stream.drop data_size) data_size s'
  else (s, stream)
  termination_by stream.length
  decreasing_by
    simp only [List.length_drop]
    omega

/-- The per-connection session (`_handle_client_connection`, lines 142-252):
read the 50-byte identity, the 100-byte filename and the 4-byte big-endian
`data_size`; raise `ValueError` (modelled as `none`) when `data_size <= 0`;
then run the frame reception loop. -/
def receiver_session (stream : List Nat) : Option (EngineState × List Nat) :=
  match recv_all stream 50 with
  | none => none
  | some (_name, s1) =>
    match recv_all s1 100 with
    | none => none
    | some (_filename, s2) =>
      match recv_all s2 4 with
      | none => none
      | some (size_bytes, s3) =>
        let data_size := bytesToNat size_bytes
        if data_size ≤ 0 then none
        else some (read_frames s3 data_size initState)

/-! ## Receiver: live feed slot assignment (`_update_live_feed_display`) -/

/-- Sentinel marking an unassigned live-feed slot. -/
def NA : String := "N/A"

/-- First index (scanning left to right, Python `enumerate`) whose position
and slot value satisfy `p`. -/
def findSlot (p : Nat → String → Bool) : List String → Option Nat
  | [] => none
  | a :: rest =>
    if p 0 a then some 0 else (findSlot (fun i s => p (i + 1) s) rest).map (· + 1)

/-- Rule 1: the arriving identity's preferred slot, when that slot is `'N/A'`
or already assigned to this identity. -/
def step1_pref (prefs : List (String × Nat)) (table : List String) (name : String) :
    Option Nat :=
  match prefs.lookup name with
  | some p => if table.getD p "" = NA ∨ table.getD p "" = name then some p else none
  | none => none

/-- Rule 2: the slot this identity already occupies, if any. -/
def step2_existing (table : List String) (name : String) : Option Nat :=
  findSlot (fun _ s => s == name) table

/-- Rule 3: the first `'N/A'` slot whose index is not any identity's preferred
slot (`i not in preferred_assignments.values()`). -/
def step3_general (prefs : List (String × Nat)) (table : List String) : Option Nat :=
  findSlot (fun i s => s == NA && !((prefs.map Prod.snd).contains i)) table

/-- Rule 4: the first `'N/A'` slot regardless of preference reservations. -/
def step4_anyNA (table : List String) : Option Nat :=
  findSlot (fun _ s => s == NA) table

/-- The slot chosen for an arriving identity, applying rules 1-4 in order and
falling back to slot `0` when every slot is occupied (last resort). -/
def choose_slot (prefs : List (String × Nat)) (table : List String) (name : String) :
    Nat :=
  match step1_pref prefs table name with
  | some i => i
  | none =>
    match step2_existing table name with
    | some i => i
    | none =>
      match step3_general prefs table with
      | some i => i
      | none =>
        match step4_anyNA table with
        | some i => i
        | none => 0

/-- Choose a slot and record the identity in it
(`feed_slot['transmitter_name'] = transmitter_name`). -/
def assign_slot (prefs : List (String × Nat)) (table : List String) (name : String) :
    Nat × List String :=
  let i := choose_slot prefs table name
  (i, table.set i name)

/-- Process a sequence of arrivals, collecting the chosen slot indices. -/
def run_arrivals (prefs : List (String × Nat)) (table : List String)
    (names : List String) : List Nat × List String :=
  names.foldl (fun acc name =>
    let r := assign_slot prefs acc.2 name
    (acc.1 ++ [r.1], r.2)) ([], table)

/-- No identity other than the `'N/A'` sentinel labels two distinct slots. -/
def noDoubleSlot (table : List String) : Prop :=
  ∀ i, i < table.length → ∀ j, j < table.length →
    table.getD i "" ≠ NA → table.getD i "" = table.getD j "" → i = j

instance (table : List String) : Decidable (noDoubleSlot table) := by
  unfold noDoubleSlot
  infer_instance

/-! ## Auxiliary lemmas: byte encoding and dictionary operations -/

theorem bytesToNat_pair (x y : Nat) : bytesToNat [x, y] = x * 256 + y := by
  simp [bytesToNat]

theorem gridLookup_gridInsert_self (g : List ((Nat × Nat) × List Nat))
    (key : Nat × Nat) (v : List Nat) :
    gridLookup (gridInsert g key v) key = some v := by
  induction g with
  | nil => simp [gridInsert, gridLookup]
  | cons p rest ih =>
    by_cases h : p.1 = key
    · simp [gridInsert, gridLookup, h]
    · simp only [gridInsert, gridLookup]
      rw [if_neg h, gridLookup, if_neg h]
      exact ih

theorem gridLookup_gridInsert_ne (g : List ((Nat × Nat) × List Nat))
    (key key' : Nat × Nat) (v : List Nat) (h : key' ≠ key) :
    gridLookup (gridInsert g key v) key' = gridLookup g key' := by
  have hne : key ≠ key' := fun hk => h hk.symm
  induction g with
  | nil =>
    simp only [gridInsert, gridLookup]
    rw [if_neg hne]
  | cons p rest ih =>
    obtain ⟨k, w⟩ := p
    by_cases hp : k = key
    · simp only [gridInsert]
      rw [if_pos hp, gridLookup, gridLookup, hp, if_neg hne, if_neg hne]
    · simp only [gridInsert]
      rw [if_neg hp, gridLookup, gridLookup]
      by_cases hp' : k = key'
      · rw [if_pos hp', if_pos hp']
      · rw [if_neg hp', if_neg hp']
        exact ih

theorem gridLookup_some_mem (g : List ((Nat × Nat) × List Nat)) (key : Nat × Nat)
    (v : List Nat) (h : gridLookup g key = some v) : key ∈ g.map Prod.fst := by
  induction g with
  | nil => simp [gridLookup] at h
  | cons p rest ih =>
    rw [gridLookup] at h
    by_cases hp : p.1 = key
    · simp [hp]
    · rw [if_neg hp] at h
      simp [ih h]

theorem length_gridInsert_mem (g : List ((Nat × Nat) × List Nat)) (key : Nat × Nat)
    (v : List Nat) (h : key ∈ g.map Prod.fst) :
    (gridInsert g key v).length = g.length := by
  induction g with
  | nil => simp at h
  | cons p rest ih =>
    by_cases hp : p.1 = key
    · simp only [gridInsert]
      rw [if_pos hp]
      simp
    · simp only [gridInsert]
      rw [if_neg hp]
      simp only [List.map_cons, List.mem_cons] at h
      rcases h with h | h
      · exact absurd h.symm hp
      · simp [ih h]

theorem gridInsert_not_mem (g : List ((Nat × Nat) × List Nat)) (key : Nat × Nat)
    (v : List Nat) (h : key ∉ g.map Prod.fst) :
    gridInsert g key v = g ++ [(key, v)] := by
  induction g with
  | nil => rfl
  | cons p rest ih =>
    simp only [List.map_cons, List.mem_cons, not_or] at h
    simp only [gridInsert]
    rw [if_neg (fun hk => h.1 hk.symm), ih h.2]
    simp

theorem gridLookup_not_mem (g : List ((Nat × Nat) × List Nat)) (key : Nat × Nat)
    (h : key ∉ g.map Prod.fst) : gridLookup g key = none := by
  induction g with
  | nil => rfl
  | cons p rest ih =>
    simp only [List.map_cons, List.mem_cons, not_or] at h
    rw [gridLookup, if_neg (fun hk => h.1 hk.symm)]
    exact ih h.2

/-! ## C10: the exact-read helper -/

theorem recv_all_impl_spec (n : Nat) (stream sizes data : List Nat) :
    recv_all_impl sizes stream n data =
      if n ≤ data.length + stream.length
      then some (data ++ stream.take (n - data.length), stream.drop (n - data.length))
      else none := by
  induction sizes, stream, n, data using recv_all_impl.induct with
  | case1 sizes n data hlt =>
    rw [recv_all_impl]
    simp only [List.length_nil, Nat.add_zero]
    rw [if_pos hlt, if_neg (by omega)]
  | case2 sizes n data hlt b rest t ih =>
    rw [recv_all_impl]
    rw [if_pos hlt]
    simp only
    rw [show min (min (sizes.headD 0 + 1) (n - data.length)) (b :: rest).length = t from rfl]
    rw [ih]
    have ht1 : 1 ≤ t := by
      rw [show t = min (min (sizes.headD 0 + 1) (n - data.length)) (b :: rest).length from rfl]
      rw [Nat.le_min, Nat.le_min]
      refine ⟨⟨Nat.succ_le_succ (Nat.zero_le _), by omega⟩, by simp⟩
    have ht2 : t ≤ n - data.length := by
      rw [show t = min (min (sizes.headD 0 + 1) (n - data.length)) (b :: rest).length from rfl]
      exact le_trans (Nat.min_le_left _ _) (Nat.min_le_right _ _)
    have ht3 : t ≤ (b :: rest).length := by
      rw [show t = min (min (sizes.headD 0 + 1) (n - data.length)) (b :: rest).length from rfl]
      exact Nat.min_le_right _ _
    have hlen1 : (data ++ (b :: rest).take t).length = data.length + t := by
      rw [List.length_append, List.length_take, Nat.min_eq_left ht3]
    have hlen2 : ((b :: rest).drop t).length = (b :: rest).length - t := by
      simp [List.length_drop]
    rw [hlen1, hlen2]
    by_cases hcond : n ≤ data.length + (b :: rest).length
    · rw [if_pos (by omega), if_pos hcond]
      have harith : n - (data.length + t) = n - data.length - t := by omega
      congr 1
      rw [harith]
      congr 1
      · rw [List.append_assoc]
        congr 1
        rw [← List.take_add]
        congr 1
        omega
      · rw [List.drop_drop]
        congr 1
        omega
    · rw [if_neg (by omega), if_neg hcond]
  | case3 sizes stream n data hge =>
    rw [recv_all_impl.eq_def]
    rw [if_neg hge, if_pos (by omega)]
    have : n - data.length = 0 := by omega
    rw [this]
    simp

/-- Claim C10 (confirmed): for every requested byte count `n`, however the
socket chunks its deliveries, `_recv_all` returns either exactly the first
`n` bytes of the stream or `none` when the stream is shorter, discarding any
partially accumulated bytes — it agrees with the exact-or-nothing
specification `recv_all` on every input. -/
theorem C10_recv_all_exact_or_none (sizes stream : List Nat) (n : Nat) :
    recv_all_impl sizes stream n [] =
      (if n ≤ stream.length then some (stream.take n, stream.drop n) else none) ∧
    recv_all_impl sizes stream n [] = recv_all stream n := by
  have h := recv_all_impl_spec n stream sizes []
  simp only [List.length_nil, Nat.zero_add, List.nil_append, Nat.sub_zero] at h
  exact ⟨h, by rw [h]; rfl⟩

/-! ## C2: handshake validation of the frame size -/

/-- Concrete byte stream: a 50-byte identity, a 100-byte filename, the
`frame_size` field `10`, followed by one 10-byte frame (a bare header
declaring `total_frames = 1` at position `(0, 0)`). -/
def c2Stream : List Nat :=
  List.replicate 50 1 ++ List.replicate 100 2 ++ [0, 0, 0, 10] ++
    [0, 0, 0, 0, 0, 0, 0, 1, 0, 0]

theorem c2Stream_session :
    receiver_session c2Stream =
      some (process_frame initState [0, 0, 0, 0, 0, 0, 0, 1, 0, 0], []) := by
  have h1 : receiver_session c2Stream =
      some (read_frames [0, 0, 0, 0, 0, 0, 0, 1, 0, 0] 10 initState) := rfl
  rw [h1, read_frames]
  rw [dif_pos (by decide)]
  simp only
  rw [if_pos (by decide)]
  decide

/-- Claim C2 (refuted): the receiver was claimed to reject any handshake whose
`frame_size` field is 10 or less before reading any frame; on this stream the
field is exactly 10, yet the session is not aborted, the 10 bytes following
the handshake are consumed as a frame, and the transfer even completes. -/
theorem C2_counterexample :
    bytesToNat (pySlice c2Stream 150 154) = 10 ∧
    receiver_session c2Stream ≠ none ∧
    (receiver_session c2Stream).map Prod.snd = some [] ∧
    (receiver_session c2Stream).map (fun r => r.1.frame_grid.length) = some 1 := by
  refine ⟨by decide, ?_, ?_, ?_⟩ <;> rw [c2Stream_session]
  · exact Option.noConfusion
  · decide
  · decide

/-- Claim C2 (amended, confirmed): after a complete 154-byte handshake the
receiver aborts before reading any frame exactly when the received
`frame_size` field is zero (`if data_size <= 0: raise ValueError`); every
nonzero `frame_size` — including values of 10 or less — is accepted and the
receiver goes on to read `frame_size`-byte frames. -/
theorem C2_frame_size_validation (stream : List Nat) (h : 154 ≤ stream.length) :
    (receiver_session stream = none ↔ bytesToNat (pySlice stream 150 154) = 0) := by
  unfold receiver_session recv_all
  rw [if_pos (by omega)]
  simp only
  rw [if_pos (by rw [List.length_drop]; omega)]
  simp only
  rw [if_pos (by rw [List.length_drop, List.length_drop]; omega)]
  simp only
  rw [List.drop_drop]
  have hslice : pySlice stream 150 154 = (stream.drop 150).take 4 := rfl
  rw [show (50 : Nat) + 100 = 150 from rfl, hslice]
  by_cases hz : bytesToNat ((stream.drop 150).take 4) ≤ 0
  · rw [if_pos hz]
    simp
    omega
  · rw [if_neg hz]
    simp
    omega

/-- Witness for C2: an all-zero handshake (whose `frame_size` field is 0) is
rejected. -/
theorem C2_frame_size_validation_witness :
    receiver_session (List.replicate 154 0) = none :=
  (C2_frame_size_validation (List.replicate 154 0) (by decide)).mpr (by decide)

/-! ## C7: total-frames mismatch is warn-and-continue -/

/-- Claim C7 (confirmed): once the first frame has fixed
`total_frames_expected`, a later frame whose `total_frames` field disagrees
leaves the recorded value unchanged, leaves every other grid position
unchanged, and merely increments the mismatch-warning count. -/
theorem C7_total_frames_mismatch_warns_only (s : EngineState) (frame : List Nat)
    (hset : s.total_frames_expected ≠ -1)
    (hmis : s.total_frames_expected ≠ (ftot frame : Int)) :
    (process_frame s frame).total_frames_expected = s.total_frames_expected ∧
    (process_frame s frame).mismatch_warnings = s.mismatch_warnings + 1 ∧
    ∀ key, key ≠ (frow frame, fcol frame) →
      gridLookup (process_frame s frame).frame_grid key =
        gridLookup s.frame_grid key := by
  refine ⟨?_, ?_, ?_⟩
  · simp [process_frame, hset]
  · simp [process_frame, hset, hmis]
  · intro key hk
    simp only [process_frame]
    exact gridLookup_gridInsert_ne s.frame_grid _ key (fchunk frame) hk

/-- Witness for C7: a state that expects 3 frames, fed a frame declaring 5. -/
theorem C7_total_frames_mismatch_warns_only_witness :
    (process_frame (process_frame initState [0, 0, 0, 0, 0, 0, 0, 3, 0, 0, 9])
        [0, 1, 0, 0, 0, 1, 0, 5, 0, 0, 7]).total_frames_expected = 3 ∧
    (process_frame (process_frame initState [0, 0, 0, 0, 0, 0, 0, 3, 0, 0, 9])
        [0, 1, 0, 0, 0, 1, 0, 5, 0, 0, 7]).mismatch_warnings = 1 ∧
    gridLookup (process_frame (process_frame initState [0, 0, 0, 0, 0, 0, 0, 3, 0, 0, 9])
        [0, 1, 0, 0, 0, 1, 0, 5, 0, 0, 7]).frame_grid (0, 0) = some [9] := by
  have h := C7_total_frames_mismatch_warns_only
    (process_frame initState [0, 0, 0, 0, 0, 0, 0, 3, 0, 0, 9])
    [0, 1, 0, 0, 0, 1, 0, 5, 0, 0, 7] (by decide) (by decide)
  refine ⟨?_, ?_, ?_⟩
  · rw [h.1]; decide
  · rw [h.2.1]; decide
  · rw [h.2.2 (0, 0) (by decide)]; decide

/-! ## C8: idempotent re-delivery -/

/-- Claim C8 (confirmed): re-processing a frame whose `(row, col)` position is
already present in the reconstruction buffer replaces the stored chunk at
that position and leaves the distinct-position count unchanged, so duplicates
never over-count toward `received_count == expected_total_frames`. -/
theorem C8_duplicate_delivery_idempotent (s : EngineState) (frame old : List Nat)
    (h : gridLookup s.frame_grid (frow frame, fcol frame) = some old) :
    (process_frame s frame).frame_grid.length = s.frame_grid.length ∧
    gridLookup (process_frame s frame).frame_grid (frow frame, fcol frame) =
      some (fchunk frame) := by
  constructor
  · simp only [process_frame]
    exact length_gridInsert_mem s.frame_grid _ _ (gridLookup_some_mem _ _ _ h)
  · simp only [process_frame]
    exact gridLookup_gridInsert_self s.frame_grid _ _

/-- Witness for C8: re-delivering position `(0, 0)` with a new payload. -/
theorem C8_duplicate_delivery_idempotent_witness :
    (process_frame (process_frame initState [0, 0, 0, 0, 0, 0, 0, 2, 0, 0, 9])
        [0, 0, 0, 0, 0, 0, 0, 2, 0, 0, 7]).frame_grid.length = 1 ∧
    gridLookup (process_frame (process_frame initState [0, 0, 0, 0, 0, 0, 0, 2, 0, 0, 9])
        [0, 0, 0, 0, 0, 0, 0, 2, 0, 0, 7]).frame_grid (0, 0) = some [7] := by
  have h := C8_duplicate_delivery_idempotent
    (process_frame initState [0, 0, 0, 0, 0, 0, 0, 2, 0, 0, 9])
    [0, 0, 0, 0, 0, 0, 0, 2, 0, 0, 7] [9] (by decide)
  constructor
  · rw [h.1]; decide
  · have h2 := h.2
    rw [show frow [0, 0, 0, 0, 0, 0, 0, 2, 0, 0, 7] = 0 from rfl,
      show fcol [0, 0, 0, 0, 0, 0, 0, 2, 0, 0, 7] = 0 from rfl] at h2
    rw [h2]; decide

/-! ## Canonical form of generated frames -/

/-- The value produced by `mkFrame` whenever every header field fits 16 bits:
the explicit 10 header bytes followed by the padded chunk. -/
def frameAt (file_bytes : List Nat) (chunk_size cols total i : Nat) : List Nat :=
  [i / 256, i % 256, (i / cols) / 256, (i / cols) % 256,
   (i % cols) / 256, (i % cols) % 256, total / 256, total % 256, 0, 0] ++
  chunkAt file_bytes chunk_size i

theorem mkFrame_ok (l : List Nat) (k cols total i : Nat) (hc : cols ≠ 0)
    (hi : i < 65536) (ht : total < 65536) :
    mkFrame l k cols total i = .ok (frameAt l k cols total i) := by
  have h1 : i / cols < 65536 := lt_of_le_of_lt (Nat.div_le_self i cols) hi
  have h2 : i % cols < 65536 := lt_of_le_of_lt (Nat.mod_le i cols) hi
  simp only [mkFrame, mkHeader, toBytes2, if_neg hc, if_pos hi, if_pos ht,
    if_pos h1, if_pos h2, Option.bind_eq_bind, Option.bind_some, frameAt]
  rfl

theorem frow_frameAt (l : List Nat) (k cols total i : Nat) :
    frow (frameAt l k cols total i) = i / cols := by
  show (0 * 256 + i / cols / 256) * 256 + i / cols % 256 = i / cols
  omega

theorem fcol_frameAt (l : List Nat) (k cols total i : Nat) :
    fcol (frameAt l k cols total i) = i % cols := by
  show (0 * 256 + i % cols / 256) * 256 + i % cols % 256 = i % cols
  omega

theorem ftot_frameAt (l : List Nat) (k cols total i : Nat) :
    ftot (frameAt l k cols total i) = total := by
  show (0 * 256 + total / 256) * 256 + total % 256 = total
  omega

theorem fkey_frameAt (l : List Nat) (k cols total i : Nat) :
    fkey (frameAt l k cols total i) = (i / cols, i % cols) := by
  rw [fkey, frow_frameAt, fcol_frameAt]

theorem fchunk_frameAt (l : List Nat) (k cols total i : Nat) :
    fchunk (frameAt l k cols total i) = chunkAt l k i := rfl

theorem length_chunkAt (l : List Nat) (k i : Nat) : (chunkAt l k i).length = k := by
  simp only [chunkAt, List.length_append, List.length_replicate, List.length_take,
    List.length_drop]
  omega

theorem length_frameAt (l : List Nat) (k cols total i : Nat) :
    (frameAt l k cols total i).length = 10 + k := by
  simp [frameAt, length_chunkAt]
  omega

theorem except_bind_ok {γ β δ : Type} (b : β) (f : β → Except γ δ) :
    (Except.ok b >>= f) = f b := rfl

theorem except_bind_error {γ β δ : Type} (e : γ) (f : β → Except γ δ) :
    (Except.error e >>= f) = Except.error e := rfl

theorem key_of_index_eq (cols i j : Nat) (h : (i / cols, i % cols) = (j / cols, j % cols)) :
    i = j := by
  rw [Prod.mk.injEq] at h
  have h1 := Nat.div_add_mod i cols
  have h2 := Nat.div_add_mod j cols
  rw [h.1, h.2] at h1
  omega

theorem mapM_mkFrame_ok (l : List Nat) (k cols total : Nat) (hc : cols ≠ 0)
    (ht : total < 65536) :
    ∀ (n s : Nat), s + n ≤ total →
      (List.range' s n).mapM (mkFrame l k cols total) =
        .ok ((List.range' s n).map (frameAt l k cols total)) := by
  intro n
  induction n with
  | zero => intro s _; rfl
  | succ m ih =>
    intro s hs
    rw [List.range'_succ, List.mapM_cons, List.map_cons]
    rw [mkFrame_ok l k cols total s hc (by omega) ht]
    rw [ih (s + 1) (by omega)]
    rfl

/-- Value of `generate_frames` in the non-degenerate case. -/
theorem generate_frames_ok (l : List Nat) (fs cols : Nat) (hfs : header_size < fs)
    (hc : cols ≠ 0)
    (ht : (l.length + (fs - header_size) - 1) / (fs - header_size) < 65536) :
    generate_frames l fs cols =
      .ok ((List.range' 0 ((l.length + (fs - header_size) - 1) / (fs - header_size))).map
        (frameAt l (fs - header_size) cols
          ((l.length + (fs - header_size) - 1) / (fs - header_size)))) := by
  unfold generate_frames
  rw [if_neg (by simp only [header_size] at hfs ⊢; omega)]
  exact mapM_mkFrame_ok l (fs - header_size) cols
    ((l.length + (fs - header_size) - 1) / (fs - header_size)) hc ht
    ((l.length + (fs - header_size) - 1) / (fs - header_size)) 0 (by omega)

theorem mapM_ok_forall {α β γ : Type} (f : α → Except γ β) :
    ∀ (xs : List α) (ys : List β), xs.mapM f = .ok ys → ∀ x ∈ xs, ∃ y, f x = .ok y := by
  intro xs
  induction xs with
  | nil => intro ys _ x hx; cases hx
  | cons a rest ih =>
    intro ys h x hx
    rw [List.mapM_cons] at h
    cases hfa : f a with
    | error e => rw [hfa, except_bind_error] at h; cases h
    | ok y =>
      rw [hfa, except_bind_ok] at h
      cases hrest : rest.mapM f with
      | error e =>
        rw [hrest, except_bind_error] at h
        cases h
      | ok ys' =>
        rw [hrest] at h
        rcases List.mem_cons.mp hx with rfl | hx'
        · exact ⟨y, hfa⟩
        · exact ih ys' hrest x hx'

/-- Inversion: whenever `generate_frames` succeeds, the frame size was valid
and the result is the canonical frame list (with every field in 16-bit
range), or the input was empty and no frame was produced. -/
theorem generate_frames_inversion (l : List Nat) (fs cols : Nat)
    (F : List (List Nat)) (h : generate_frames l fs cols = .ok F) :
    header_size < fs ∧
      ((l.length + (fs - header_size) - 1) / (fs - header_size) = 0 ∧ F = [] ∨
        cols ≠ 0 ∧ (l.length + (fs - header_size) - 1) / (fs - header_size) < 65536 ∧
          F = (List.range' 0 ((l.length + (fs - header_size) - 1) / (fs - header_size))).map
            (frameAt l (fs - header_size) cols
              ((l.length + (fs - header_size) - 1) / (fs - header_size)))) := by
  have hfs : header_size < fs := by
    by_contra hle
    unfold generate_frames at h
    rw [if_pos (by simp only [header_size] at hle ⊢; omega)] at h
    cases h
  refine ⟨hfs, ?_⟩
  have horig := h
  set total := (l.length + (fs - header_size) - 1) / (fs - header_size) with htotal
  by_cases h0 : total = 0
  · left
    refine ⟨h0, ?_⟩
    unfold generate_frames at h
    rw [if_neg (by simp only [header_size] at hfs ⊢; omega)] at h
    rw [← htotal, h0] at h
    simp only [List.range'] at h
    cases h
    rfl
  · right
    unfold generate_frames at h
    rw [if_neg (by simp only [header_size] at hfs ⊢; omega)] at h
    rw [← htotal] at h
    have hmem : (0 : Nat) ∈ List.range' 0 total :=
      List.mem_range'_1.mpr ⟨Nat.le_refl 0, by simpa using Nat.pos_of_ne_zero h0⟩
    obtain ⟨y, hy⟩ := mapM_ok_forall _ _ _ h 0 hmem
    have hc : cols ≠ 0 := by
      intro hceq
      rw [mkFrame, if_pos hceq] at hy
      cases hy
    have ht : total < 65536 := by
      by_contra hge
      rw [mkFrame, if_neg hc] at hy
      rw [mkHeader] at hy
      simp only [toBytes2, Nat.zero_div, Nat.zero_mod] at hy
      rw [if_pos (by omega), if_neg (by omega)] at hy
      simp only [Option.bind_eq_bind, Option.some_bind, Option.none_bind] at hy
      cases hy
    refine ⟨hc, ht, ?_⟩
    have hcanon := generate_frames_ok l fs cols hfs hc (htotal ▸ ht)
    have hok : (Except.ok F : Except GenError (List (List Nat))) =
        Except.ok ((List.range' 0 total).map (frameAt l (fs - header_size) cols total)) := by
      rw [← horig, hcanon, ← htotal]
    exact Except.ok.inj hok

/-! ## C6: the chunk splitter contract -/

/-- Claim C6 (refuted as universally stated): on a 65536-byte input with
`frame_size = 11` the chunk count does not fit the 16-bit `total_frames`
header field, so `generate_frames` raises `OverflowError` inside
`to_bytes(2, 'big')` instead of producing `ceil(len/chunk)` frames — the
failure is not a configuration error and `frame_size - 10 > 0` holds. -/
theorem C6_counterexample :
    generate_frames (List.replicate 65536 0) 11 20 =
      .error GenError.overflowError := by
  unfold generate_frames
  rw [if_neg (by decide)]
  rw [List.length_replicate]
  rw [show (11 : Nat) - header_size = 1 from rfl]
  rw [show (65536 + 1 - 1 : Nat) / 1 = 65535 + 1 by norm_num]
  show (List.range' 0 (65535 + 1)).mapM (mkFrame (List.replicate 65536 0) 1 20 (65535 + 1)) =
    Except.error GenError.overflowError
  rw [List.range'_succ, List.mapM_cons]
  rw [show mkFrame (List.replicate 65536 0) 1 20 (65535 + 1) 0 =
    .error GenError.overflowError from rfl]
  rw [except_bind_error]

/-- Claim C6 (amended, confirmed): the splitter fails with the configuration
error exactly when `frame_size - 10` is not positive, and — provided the
resulting chunk count fits the 16-bit header field — otherwise produces
`ceil(len(bytes) / chunk_payload_size)` frames, each exactly `frame_size`
bytes with the final chunk zero-padded, chunk `i` carrying grid position
`(i / C, i % C)`; when the chunk count exceeds 65535 it instead fails with
an overflow error. -/
theorem C6_chunk_splitter_contract (l : List Nat) (fs cols : Nat) (hc : 1 ≤ cols) :
    (fs ≤ header_size → generate_frames l fs cols = .error GenError.configError) ∧
    (header_size < fs →
      (l.length + (fs - header_size) - 1) / (fs - header_size) ≤ 65535 →
      ∃ F, generate_frames l fs cols = .ok F ∧
        F.length = (l.length + (fs - header_size) - 1) / (fs - header_size) ∧
        ∀ i, i < F.length →
          (F.getD i []).length = fs ∧
          frow (F.getD i []) = i / cols ∧
          fcol (F.getD i []) = i % cols ∧
          ftot (F.getD i []) = (l.length + (fs - header_size) - 1) / (fs - header_size) ∧
          fchunk (F.getD i []) = chunkAt l (fs - header_size) i) := by
  constructor
  · intro hle
    unfold generate_frames
    rw [if_pos (by simp only [header_size] at hle ⊢; omega)]
  · intro hfs ht
    set total := (l.length + (fs - header_size) - 1) / (fs - header_size) with htotal
    refine ⟨(List.range' 0 total).map (frameAt l (fs - header_size) cols total), ?_, ?_, ?_⟩
    · rw [generate_frames_ok l fs cols hfs (by omega) (by omega), ← htotal]
    · rw [List.length_map, List.length_range']
    · intro i hi
      rw [List.length_map, List.length_range'] at hi
      have hget : ((List.range' 0 total).map (frameAt l (fs - header_size) cols total)).getD i []
          = frameAt l (fs - header_size) cols total i := by
        rw [List.getD_eq_getElem _ _ (by rw [List.length_map, List.length_range']; exact hi)]
        rw [List.getElem_map, List.getElem_range']
        norm_num
      rw [hget, length_frameAt, frow_frameAt, fcol_frameAt, ftot_frameAt, fchunk_frameAt]
      refine ⟨by simp only [header_size] at hfs ⊢; omega, rfl, rfl, rfl, rfl⟩

/-- Witness for C6: splitting `[1, 2, 3]` with `frame_size = 12`, `cols = 2`
gives two 12-byte frames at positions `(0,0)` and `(0,1)`. -/
theorem C6_chunk_splitter_contract_witness :
    ∃ F, generate_frames [1, 2, 3] 12 2 = .ok F ∧ F.length = 2 ∧
      ∀ i, i < F.length → (F.getD i []).length = 12 ∧ frow (F.getD i []) = i / 2 ∧
        fcol (F.getD i []) = i % 2 ∧ ftot (F.getD i []) = 2 ∧
        fchunk (F.getD i []) = chunkAt [1, 2, 3] 2 i := by
  have h := (C6_chunk_splitter_contract [1, 2, 3] 12 2 (by decide)).2 (by decide) (by decide)
  norm_num [header_size] at h
  simpa only [List.getD_eq_getElem?_getD] using h

/-! ## Characterisation of the reception loop on distinct-position frames -/

/-- Folding the frame processor over a list, ignoring the loop's early break
(used to characterise `run_engine`, which agrees with it whenever the break
can only fire on the last frame). -/
def processAll (s : EngineState) (L : List (List Nat)) : EngineState :=
  L.foldl process_frame s

theorem processAll_concat (s : EngineState) (L : List (List Nat)) (f : List Nat) :
    processAll s (L ++ [f]) = process_frame (processAll s L) f :=
  List.foldl_concat process_frame s f L

theorem frame_grid_processAll (L : List (List Nat)) (hnd : (L.map fkey).Nodup) :
    (processAll initState L).frame_grid = L.map (fun f => (fkey f, fchunk f)) := by
  induction L using List.reverseRecOn with
  | nil => rfl
  | append_singleton L f ih =>
    rw [List.map_append] at hnd
    have hL : (L.map fkey).Nodup := (List.nodup_append.mp hnd).1
    have hf : fkey f ∉ L.map fkey := by
      intro hmem
      have hdisj := (List.nodup_append.mp hnd).2.2
      exact hdisj hmem (by simp)
    rw [processAll_concat]
    show gridInsert (processAll initState L).frame_grid (frow f, fcol f) (fchunk f) =
      (L ++ [f]).map fun g => (fkey g, fchunk g)
    rw [ih hL, List.map_append]
    rw [show ((frow f, fcol f) : Nat × Nat) = fkey f from rfl]
    rw [gridInsert_not_mem]
    · rfl
    · intro hmem
      apply hf
      rw [List.map_map] at hmem
      simpa using hmem

theorem count_processAll (L : List (List Nat)) (hnd : (L.map fkey).Nodup) :
    (processAll initState L).frame_grid.length = L.length := by
  rw [frame_grid_processAll L hnd, List.length_map]

theorem gridLookup_pairs_mem (L : List (List Nat)) (f : List Nat)
    (hnd : (L.map fkey).Nodup) (hf : f ∈ L) :
    gridLookup (L.map fun g => (fkey g, fchunk g)) (fkey f) = some (fchunk f) := by
  induction L with
  | nil => cases hf
  | cons g rest ih =>
    rw [List.map_cons] at hnd ⊢
    have hnd' := List.nodup_cons.mp hnd
    rw [gridLookup]
    by_cases hk : fkey g = fkey f
    · rw [if_pos hk]
      rcases List.mem_cons.mp hf with rfl | hf'
      · rfl
      · exact absurd (hk ▸ List.mem_map.mpr ⟨f, hf', rfl⟩) hnd'.1
    · rw [if_neg hk]
      rcases List.mem_cons.mp hf with rfl | hf'
      · exact absurd rfl hk
      · exact ih hnd'.2 hf'

theorem gridLookup_pairs_not_mem (L : List (List Nat)) (key : Nat × Nat)
    (h : key ∉ L.map fkey) :
    gridLookup (L.map fun g => (fkey g, fchunk g)) key = none := by
  apply gridLookup_not_mem
  rw [List.map_map]
  simpa using h

theorem tfe_processAll_stable (L : List (List Nat)) :
    ∀ s : EngineState, s.total_frames_expected ≠ -1 →
      (processAll s L).total_frames_expected = s.total_frames_expected := by
  induction L with
  | nil => intro s _; rfl
  | cons f rest ih =>
    intro s hs
    show (processAll (process_frame s f) rest).total_frames_expected = _
    have hstep : (process_frame s f).total_frames_expected = s.total_frames_expected := by
      simp [process_frame, hs]
    rw [ih (process_frame s f) (by rw [hstep]; exact hs), hstep]

theorem tfe_processAll (L : List (List Nat)) (total : Nat)
    (htot : ∀ f ∈ L, ftot f = total) (hL : L ≠ []) :
    (processAll initState L).total_frames_expected = (total : Int) := by
  cases L with
  | nil => exact absurd rfl hL
  | cons f rest =>
    have h1 : (process_frame initState f).total_frames_expected = (total : Int) := by
      simp [process_frame, initState, htot f (by simp)]
    show (processAll (process_frame initState f) rest).total_frames_expected = _
    rw [tfe_processAll_stable rest _ (by rw [h1]; omega), h1]

theorem max_row_processAll (L : List (List Nat)) :
    ∀ s : EngineState, (processAll s L).max_row =
      L.foldl (fun m f => max m (frow f : Int)) s.max_row := by
  induction L with
  | nil => intro s; rfl
  | cons f rest ih =>
    intro s
    show (processAll (process_frame s f) rest).max_row = _
    rw [ih (process_frame s f)]
    rfl

theorem max_col_processAll (L : List (List Nat)) :
    ∀ s : EngineState, (processAll s L).max_col =
      L.foldl (fun m f => max m (fcol f : Int)) s.max_col := by
  induction L with
  | nil => intro s; rfl
  | cons f rest ih =>
    intro s
    show (processAll (process_frame s f) rest).max_col = _
    rw [ih (process_frame s f)]
    rfl

theorem foldl_max_le {α : Type} (g : α → Int) (M : Int) :
    ∀ (L : List α) (a : Int), a ≤ M → (∀ x ∈ L, g x ≤ M) →
      L.foldl (fun m x => max m (g x)) a ≤ M := by
  intro L
  induction L with
  | nil => intro a ha _; exact ha
  | cons y rest ih =>
    intro a ha hall
    exact ih (max a (g y)) (max_le ha (hall y (by simp))) fun x hx => hall x (by simp [hx])

theorem le_foldl_max_self {α : Type} (g : α → Int) :
    ∀ (L : List α) (a : Int), a ≤ L.foldl (fun m x => max m (g x)) a := by
  intro L
  induction L with
  | nil => intro a; exact le_refl a
  | cons y rest ih =>
    intro a
    exact le_trans (le_max_left a (g y)) (ih (max a (g y)))

theorem le_foldl_max_of_mem {α : Type} (g : α → Int) :
    ∀ (L : List α) (a : Int) (x : α), x ∈ L →
      g x ≤ L.foldl (fun m x => max m (g x)) a := by
  intro L
  induction L with
  | nil => intro a x hx; cases hx
  | cons y rest ih =>
    intro a x hx
    rcases List.mem_cons.mp hx with rfl | hx'
    · exact le_trans (le_max_right a (g x)) (le_foldl_max_self g rest _)
    · exact ih (max a (g y)) x hx'

theorem run_engine_cons (s : EngineState) (f : List Nat) (rest : List (List Nat)) :
    run_engine s (f :: rest) =
      if ((process_frame s f).frame_grid.length : Int) =
          (process_frame s f).total_frames_expected
      then process_frame s f else run_engine (process_frame s f) rest := rfl

/-- The reception loop with its early break agrees with plain folding as long
as the distinct-position count can only reach `total_frames_expected` on the
final frame: the case of pairwise-distinct positions, a common declared
total, and no more frames than that total. -/
theorem run_engine_eq_processAll (total : Nat) :
    ∀ (L L0 : List (List Nat)),
      ((L0 ++ L).map fkey).Nodup →
      (∀ f ∈ L0 ++ L, ftot f = total) →
      L0.length + L.length ≤ total →
      run_engine (processAll initState L0) L = processAll initState (L0 ++ L) := by
  intro L
  induction L with
  | nil =>
    intro L0 _ _ _
    rw [List.append_nil]
    rfl
  | cons f rest ih =>
    intro L0 hnd htot hlen
    have happ : (L0 ++ [f]) ++ rest = L0 ++ f :: rest := by
      rw [List.append_assoc]
      rfl
    have hsub : (L0 ++ [f]).Sublist (L0 ++ f :: rest) := by
      rw [← happ]
      exact List.sublist_append_left _ _
    have hnd1 : ((L0 ++ [f]).map fkey).Nodup :=
      List.Nodup.sublist (List.Sublist.map fkey hsub) hnd
    have hcount : (process_frame (processAll initState L0) f).frame_grid.length =
        L0.length + 1 := by
      rw [← processAll_concat, count_processAll _ hnd1]
      simp
    have htfe : (process_frame (processAll initState L0) f).total_frames_expected =
        (total : Int) := by
      rw [← processAll_concat]
      refine tfe_processAll _ total (fun g hg => htot g (hsub.subset hg)) ?_
      intro h0
      exact absurd (List.append_eq_nil.mp h0).2 (by simp)
    rw [run_engine_cons, hcount, htfe]
    by_cases hbreak : L0.length + 1 = total
    · rw [if_pos (by exact_mod_cast hbreak)]
      have hrest : rest = [] := by
        simp only [List.length_cons] at hlen
        have : rest.length = 0 := by omega
        exact List.length_eq_zero.mp this
      subst hrest
      rw [← processAll_concat]
    · rw [if_neg (by intro hcon; exact hbreak (by exact_mod_cast hcon))]
      have ihres := ih (L0 ++ [f])
        (by rw [happ]; exact hnd)
        (by rw [happ]; exact htot)
        (by simp only [List.length_append, List.length_cons, List.length_nil] at hlen ⊢; omega)
      rw [processAll_concat] at ihres
      rw [ihres, happ]

/-! ## Row-major flattening arithmetic -/

theorem shift_flatten (g : Nat → List Nat) (s n : Nat) :
    ((List.range' s n).map g).flatten =
      ((List.range' 0 n).map (fun c => g (s + c))).flatten := by
  rw [List.range'_eq_map_range s n, List.range'_eq_map_range 0 n, List.map_map,
    List.map_map]
  congr 1
  apply List.map_congr_left
  intro x _
  simp

theorem flatten_map_nil {α : Type} (L : List α) :
    (L.map (fun _ => ([] : List Nat))).flatten = [] := by
  induction L with
  | nil => rfl
  | cons a rest ih => simpa using ih

theorem fullgrid_flatten (g : Nat → List Nat) (cols : Nat) :
    ∀ R : Nat,
      ((List.range' 0 R).map (fun r =>
        ((List.range' 0 cols).map (fun c => g (r * cols + c))).flatten)).flatten =
      ((List.range' 0 (R * cols)).map g).flatten := by
  intro R
  induction R with
  | zero => simp
  | succ m ih =>
    rw [List.range'_concat, List.map_append, List.flatten_append, ih]
    simp only [List.map_cons, List.map_nil, List.flatten_cons, List.flatten_nil,
      List.append_nil, Nat.zero_add, Nat.one_mul]
    have hsplit : List.range' 0 ((m + 1) * cols) =
        List.range' 0 (m * cols) ++ List.range' (m * cols) cols := by
      have h := List.range'_append 0 (m * cols) cols 1
      simp only [Nat.one_mul, Nat.zero_add] at h
      rw [show (m + 1) * cols = cols + m * cols from by ring]
      exact h.symm
    rw [hsplit, List.map_append, List.flatten_append]
    congr 1
    rw [shift_flatten g (m * cols) cols]

theorem segment_flatten (h : Nat → List Nat) :
    ∀ (m n : Nat), n ≤ m →
      ((List.range' 0 m).map (fun c => if c < n then h c else [])).flatten =
      ((List.range' 0 n).map h).flatten := by
  intro m
  induction m with
  | zero =>
    intro n hn
    have : n = 0 := by omega
    subst this
    rfl
  | succ p ih =>
    intro n hn
    by_cases hnp : n ≤ p
    · rw [List.range'_concat, List.map_append, List.flatten_append, ih n hnp]
      simp only [List.map_cons, List.map_nil, List.flatten_cons, List.flatten_nil,
        Nat.zero_add, Nat.one_mul]
      rw [if_neg (by omega)]
      simp
    · have hexact : n = p + 1 := by omega
      subst hexact
      rw [List.range'_concat, List.map_append, List.flatten_append]
      rw [List.map_append, List.flatten_append]
      congr 1
      · congr 1
        apply List.map_congr_left
        intro c hc
        have : c < p + 1 := by
          have := List.mem_range'_1.mp hc
          omega
        rw [if_pos this]
      · simp only [List.map_cons, List.map_nil, List.flatten_cons, List.flatten_nil,
          Nat.zero_add, Nat.one_mul]
        rw [if_pos (by omega)]

theorem rect_flatten (g : Nat → List Nat) (cols : Nat) (hc : 1 ≤ cols) :
    ∀ (R total : Nat), total ≤ R * cols →
      ((List.range' 0 R).map (fun r =>
        ((List.range' 0 cols).map (fun c =>
          if r * cols + c < total then g (r * cols + c) else [])).flatten)).flatten =
      ((List.range' 0 total).map g).flatten := by
  intro R
  induction R with
  | zero =>
    intro total hle
    have : total = 0 := by omega
    subst this
    rfl
  | succ m ih =>
    intro total hle
    rw [List.range'_concat, List.map_append, List.flatten_append]
    simp only [List.map_cons, List.map_nil, List.flatten_cons, List.flatten_nil,
      List.append_nil, Nat.zero_add, Nat.one_mul]
    by_cases hm : total ≤ m * cols
    · rw [ih total hm]
      have hrow : ((List.range' 0 cols).map (fun c =>
          if m * cols + c < total then g (m * cols + c) else [])).flatten = [] := by
        have heq : (List.range' 0 cols).map (fun c =>
            if m * cols + c < total then g (m * cols + c) else []) =
            (List.range' 0 cols).map (fun _ => []) := by
          apply List.map_congr_left
          intro c _
          rw [if_neg (by omega)]
        rw [heq, flatten_map_nil]
      rw [hrow, List.append_nil]
    · have hfront : (List.range' 0 m).map (fun r =>
          ((List.range' 0 cols).map (fun c =>
            if r * cols + c < total then g (r * cols + c) else [])).flatten) =
          (List.range' 0 m).map (fun r =>
            ((List.range' 0 cols).map (fun c => g (r * cols + c))).flatten) := by
        apply List.map_congr_left
        intro r hr
        congr 1
        apply List.map_congr_left
        intro c hcmem
        have hrm : r < m := by
          have := List.mem_range'_1.mp hr
          omega
        have hcc : c < cols := by
          have := List.mem_range'_1.mp hcmem
          omega
        have hmul : (r + 1) * cols ≤ m * cols := Nat.mul_le_mul_right cols hrm
        rw [Nat.succ_mul] at hmul
        rw [if_pos (by omega)]
      rw [hfront, fullgrid_flatten g cols m]
      have hlast : ((List.range' 0 cols).map (fun c =>
          if m * cols + c < total then g (m * cols + c) else [])).flatten =
          ((List.range' 0 (total - m * cols)).map (fun c => g (m * cols + c))).flatten := by
        have heq : (List.range' 0 cols).map (fun c =>
            if m * cols + c < total then g (m * cols + c) else []) =
            (List.range' 0 cols).map (fun c =>
              if c < total - m * cols then g (m * cols + c) else []) := by
          apply List.map_congr_left
          intro c _
          by_cases hcl : m * cols + c < total
          · rw [if_pos hcl, if_pos (by omega)]
          · rw [if_neg hcl, if_neg (by omega)]
        rw [heq]
        apply segment_flatten
        rw [Nat.succ_mul] at hle
        omega
      rw [hlast]
      have hsplit : List.range' 0 total =
          List.range' 0 (m * cols) ++ List.range' (m * cols) (total - m * cols) := by
        have h := List.range'_append 0 (m * cols) (total - m * cols) 1
        simp only [Nat.one_mul, Nat.zero_add] at h
        nth_rewrite 1 [show total = total - m * cols + m * cols from by omega]
        exact h.symm
      rw [hsplit, List.map_append, List.flatten_append]
      congr 1
      rw [shift_flatten g (m * cols) (total - m * cols)]

theorem chunk_flatten (l : List Nat) (k : Nat) (hk : 1 ≤ k) :
    ∀ n : Nat, ((List.range' 0 n).map (chunkAt l k)).flatten =
      l.take (n * k) ++ List.replicate (n * k - min (n * k) l.length) 0 := by
  intro n
  induction n with
  | zero => simp
  | succ m ih =>
    rw [List.range'_concat, List.map_append, List.flatten_append, ih]
    simp only [List.map_cons, List.map_nil, List.flatten_cons, List.flatten_nil,
      List.append_nil, Nat.zero_add, Nat.one_mul]
    have hchunk : chunkAt l k m =
        (l.drop (m * k)).take k ++ List.replicate (k - min k (l.length - m * k)) 0 := by
      rw [chunkAt]
      simp only [List.length_take, List.length_drop]
    rw [hchunk]
    by_cases hcase : l.length ≤ m * k
    · have h1 : l.take (m * k) = l := List.take_of_length_le hcase
      have h2 : l.take ((m + 1) * k) = l :=
        List.take_of_length_le (by rw [Nat.succ_mul]; omega)
      have h3 : l.drop (m * k) = [] := List.drop_eq_nil_of_le hcase
      have h4 : min (m * k) l.length = l.length := Nat.min_eq_right hcase
      have h6 : min ((m + 1) * k) l.length = l.length :=
        Nat.min_eq_right (by rw [Nat.succ_mul]; omega)
      have h5 : l.length - m * k = 0 := by omega
      rw [h1, h2, h3, h4, h5, h6]
      simp only [List.take_nil, Nat.min_zero, Nat.sub_zero, List.nil_append]
      rw [List.append_assoc, ← List.replicate_add]
      congr 2
      rw [Nat.succ_mul]
      omega
    · push_neg at hcase
      have h1 : min (m * k) l.length = m * k := Nat.min_eq_left (le_of_lt hcase)
      rw [h1, Nat.sub_self]
      simp only [List.replicate_zero, List.append_nil]
      rw [← List.append_assoc, ← List.take_add]
      rw [show m * k + k = (m + 1) * k from (Nat.succ_mul m k).symm]
      congr 2
      by_cases hcase2 : l.length ≤ m * k + k
      · have h3 : min k (l.length - m * k) = l.length - m * k :=
          Nat.min_eq_right (by omega)
        have h4 : min ((m + 1) * k) l.length = l.length :=
          Nat.min_eq_right (by rw [Nat.succ_mul]; omega)
        rw [h3, h4, Nat.succ_mul]
        omega
      · push_neg at hcase2
        have h3 : min k (l.length - m * k) = k := Nat.min_eq_left (by omega)
        have h4 : min ((m + 1) * k) l.length = (m + 1) * k :=
          Nat.min_eq_left (by rw [Nat.succ_mul]; omega)
        rw [h3, h4, Nat.sub_self, Nat.succ_mul]
        omega

/-! ## Master lemma: any permutation of a generated frame set reconstructs
the padded original bytes -/

theorem engine_output_eq (frames : List (List Nat)) :
    engine_output frames =
      if 0 < (run_engine initState frames).total_frames_expected ∧
          ((run_engine initState frames).frame_grid.length : Int) =
            (run_engine initState frames).total_frames_expected
      then some (reconstruct (run_engine initState frames)) else none := rfl

theorem engine_output_of_perm (l : List Nat) (k cols total : Nat)
    (hk : 1 ≤ k) (hc : 1 ≤ cols) (h1 : 1 ≤ total)
    (hceil : total = (l.length + k - 1) / k)
    (L : List (List Nat))
    (hperm : L.Perm ((List.range' 0 total).map (frameAt l k cols total))) :
    engine_output L = some (l ++ List.replicate (total * k - l.length) 0) := by
  have hkeysF : ((List.range' 0 total).map (frameAt l k cols total)).map fkey =
      (List.range' 0 total).map (fun i => (i / cols, i % cols)) := by
    rw [List.map_map]
    apply List.map_congr_left
    intro i _
    simp only [Function.comp]
    exact fkey_frameAt l k cols total i
  have hndF : (((List.range' 0 total).map (frameAt l k cols total)).map fkey).Nodup := by
    rw [hkeysF]
    exact List.Nodup.map (fun i j hij => key_of_index_eq cols i j hij)
      (List.nodup_range' 0 total)
  have hndL : (L.map fkey).Nodup := ((hperm.map fkey).nodup_iff).mpr hndF
  have hmemF : ∀ f ∈ L, ∃ i, i < total ∧ f = frameAt l k cols total i := by
    intro f hf
    have hmem := hperm.mem_iff.mp hf
    obtain ⟨i, hi, heq⟩ := List.mem_map.mp hmem
    exact ⟨i, by have := List.mem_range'_1.mp hi; omega, heq.symm⟩
  have htotL : ∀ f ∈ L, ftot f = total := by
    intro f hf
    obtain ⟨i, _, hfe⟩ := hmemF f hf
    rw [hfe, ftot_frameAt]
  have hlenL : L.length = total := by
    rw [hperm.length_eq, List.length_map, List.length_range']
  have hLne : L ≠ [] := by
    intro h0
    rw [h0] at hlenL
    simp at hlenL
    omega
  have hrun : run_engine initState L = processAll initState L :=
    run_engine_eq_processAll total L [] hndL htotL (by simp [hlenL])
  have hgrid : (processAll initState L).frame_grid =
      L.map (fun f => (fkey f, fchunk f)) := frame_grid_processAll L hndL
  have hcount : (processAll initState L).frame_grid.length = total := by
    rw [hgrid, List.length_map, hlenL]
  have htfe : (processAll initState L).total_frames_expected = (total : Int) :=
    tfe_processAll L total htotL hLne
  have hmaxrow : (processAll initState L).max_row = (((total - 1) / cols : Nat) : Int) := by
    rw [max_row_processAll L initState]
    apply le_antisymm
    · apply foldl_max_le
      · show (-1 : Int) ≤ (((total - 1) / cols : Nat) : Int)
        exact le_trans (by norm_num) (Int.natCast_nonneg _)
      · intro f hf
        obtain ⟨i, hi, hfe⟩ := hmemF f hf
        rw [hfe, frow_frameAt]
        exact_mod_cast Nat.div_le_div_right (by omega : i ≤ total - 1)
    · have hmem : frameAt l k cols total (total - 1) ∈ L := by
        apply hperm.mem_iff.mpr
        exact List.mem_map.mpr ⟨total - 1, List.mem_range'_1.mpr ⟨by omega, by omega⟩, rfl⟩
      have hle := le_foldl_max_of_mem (fun f => (frow f : Int)) L initState.max_row _ hmem
      simpa [frow_frameAt] using hle
  have hmaxcol : (processAll initState L).max_col =
      ((min (total - 1) (cols - 1) : Nat) : Int) := by
    rw [max_col_processAll L initState]
    apply le_antisymm
    · apply foldl_max_le
      · show (-1 : Int) ≤ ((min (total - 1) (cols - 1) : Nat) : Int)
        exact le_trans (by norm_num) (Int.natCast_nonneg _)
      · intro f hf
        obtain ⟨i, hi, hfe⟩ := hmemF f hf
        rw [hfe, fcol_frameAt]
        have hmlt : i % cols < cols := Nat.mod_lt i (by omega)
        have hle2 : i % cols ≤ i := Nat.mod_le i cols
        exact_mod_cast (by omega : i % cols ≤ min (total - 1) (cols - 1))
    · have hjc : min (total - 1) (cols - 1) < cols := by omega
      have hmem : frameAt l k cols total (min (total - 1) (cols - 1)) ∈ L := by
        apply hperm.mem_iff.mpr
        exact List.mem_map.mpr ⟨min (total - 1) (cols - 1),
          List.mem_range'_1.mpr ⟨by omega, by omega⟩, rfl⟩
      have hle := le_foldl_max_of_mem (fun f => (fcol f : Int)) L initState.max_col _ hmem
      simpa [fcol_frameAt, Nat.mod_eq_of_lt hjc] using hle
  have hR : ((processAll initState L).max_row + 1).toNat = (total - 1) / cols + 1 := by
    rw [hmaxrow]
    rw [show ((((total - 1) / cols : Nat) : Int) + 1) =
      (((total - 1) / cols + 1 : Nat) : Int) from by push_cast; ring]
    exact Int.toNat_natCast _
  have hC : ((processAll initState L).max_col + 1).toNat = min total cols := by
    rw [hmaxcol]
    rw [show (((min (total - 1) (cols - 1) : Nat) : Int) + 1) =
      ((min (total - 1) (cols - 1) + 1 : Nat) : Int) from by push_cast; ring]
    rw [Int.toNat_natCast]
    omega
  have hlook : ∀ r c : Nat, c < cols →
      gridLookup (processAll initState L).frame_grid (r, c) =
        (if r * cols + c < total then some (chunkAt l k (r * cols + c)) else none) := by
    intro r c hcc
    rw [hgrid]
    by_cases hlt : r * cols + c < total
    · rw [if_pos hlt]
      have hmem : frameAt l k cols total (r * cols + c) ∈ L := by
        apply hperm.mem_iff.mpr
        exact List.mem_map.mpr ⟨r * cols + c,
          List.mem_range'_1.mpr ⟨by omega, by omega⟩, rfl⟩
      have hkey : fkey (frameAt l k cols total (r * cols + c)) = (r, c) := by
        rw [fkey_frameAt]
        have hdiv := Nat.mul_add_div (show 0 < cols by omega) r c
        rw [Nat.mul_comm cols r] at hdiv
        have hmod := Nat.mul_add_mod cols r c
        rw [Nat.mul_comm cols r] at hmod
        rw [hdiv, hmod, Nat.div_eq_of_lt hcc, Nat.mod_eq_of_lt hcc, Nat.add_zero]
      rw [← hkey, gridLookup_pairs_mem L _ hndL hmem, fchunk_frameAt]
    · rw [if_neg hlt]
      apply gridLookup_pairs_not_mem
      intro hmem
      have hmem2 := ((hperm.map fkey).mem_iff).mp hmem
      rw [hkeysF] at hmem2
      obtain ⟨i, hi, hkeyi⟩ := List.mem_map.mp hmem2
      have hit : i < total := by
        have := List.mem_range'_1.mp hi
        omega
      rw [Prod.mk.injEq] at hkeyi
      have hdm := Nat.div_add_mod i cols
      rw [hkeyi.1, hkeyi.2] at hdm
      have hcm : cols * r = r * cols := Nat.mul_comm cols r
      omega
  rw [engine_output_eq, hrun]
  rw [if_pos ⟨by rw [htfe]; exact_mod_cast h1, by rw [hcount, htfe]⟩]
  congr 1
  rw [reconstruct, hR, hC]
  have houter : (List.range' 0 ((total - 1) / cols + 1)).map (fun r =>
      ((List.range' 0 (min total cols)).map (fun c =>
        match gridLookup (processAll initState L).frame_grid (r, c) with
        | some chunk => chunk
        | none => [])).flatten) =
      (List.range' 0 ((total - 1) / cols + 1)).map (fun r =>
        ((List.range' 0 (min total cols)).map (fun c =>
          if r * cols + c < total then chunkAt l k (r * cols + c) else [])).flatten) := by
    apply List.map_congr_left
    intro r _
    congr 1
    apply List.map_congr_left
    intro c hcm
    have hcc : c < cols := by
      have := List.mem_range'_1.mp hcm
      omega
    rw [hlook r c hcc]
    by_cases hlt : r * cols + c < total
    · rw [if_pos hlt, if_pos hlt]
    · rw [if_neg hlt, if_neg hlt]
  rw [houter]
  have hlen_le : l.length ≤ total * k := by
    have hdm := Nat.div_add_mod (l.length + k - 1) k
    have hml : (l.length + k - 1) % k < k := Nat.mod_lt _ (by omega)
    rw [← hceil] at hdm
    have hmc : total * k = k * total := Nat.mul_comm total k
    omega
  have hmain : ((List.range' 0 ((total - 1) / cols + 1)).map (fun r =>
      ((List.range' 0 (min total cols)).map (fun c =>
        if r * cols + c < total then chunkAt l k (r * cols + c) else [])).flatten)).flatten =
      ((List.range' 0 total).map (chunkAt l k)).flatten := by
    by_cases hA : total ≤ cols
    · rw [Nat.min_eq_left hA, Nat.div_eq_of_lt (show total - 1 < cols by omega)]
      rw [List.range'_one]
      simp only [List.map_cons, List.map_nil, List.flatten_cons, List.flatten_nil,
        List.append_nil]
      congr 1
      apply List.map_congr_left
      intro c hcm
      have hct : c < total := by
        have := List.mem_range'_1.mp hcm
        omega
      rw [if_pos (by omega)]
      norm_num
    · push_neg at hA
      rw [Nat.min_eq_right (le_of_lt hA)]
      apply rect_flatten (chunkAt l k) cols hc
      have hdm := Nat.div_add_mod (total - 1) cols
      have hml : (total - 1) % cols < cols := Nat.mod_lt _ (by omega)
      have hcm : cols * ((total - 1) / cols) = (total - 1) / cols * cols :=
        Nat.mul_comm _ _
      rw [Nat.succ_mul]
      omega
  rw [hmain, chunk_flatten l k hk total, List.take_of_length_le hlen_le,
    Nat.min_eq_right hlen_le]

/-! ## C1: the round trip keeps the zero padding -/

/-- Claim C1 (refuted): splitting the single byte `[1]` with
`frame_size = 12` (chunk size 2) and one column, then reconstructing, yields
`[1, 0]` — the original byte followed by the final chunk's zero padding —
and not the original byte sequence: the receiver concatenates whole chunks
and never truncates the padding (the original length is not transmitted). -/
theorem C1_counterexample :
    splitThenReconstruct [1] 12 1 = some [1, 0] ∧
    splitThenReconstruct [1] 12 1 ≠ some [1] := by
  constructor <;> decide

/-- Claim C1 (amended, confirmed): for every nonempty byte sequence for which
frame generation succeeds, the Chunk Splitter followed by the Grid
Reconstruction Engine yields the original bytes zero-padded on the right to
a whole number of chunks; the result equals the original exactly when the
chunk payload size divides the input length. -/
theorem C1_round_trip_padded (l : List Nat) (fs cols : Nat) (F : List (List Nat))
    (hgen : generate_frames l fs cols = .ok F) (hne : l ≠ []) :
    engine_output F =
      some (l ++ List.replicate
        ((l.length + (fs - header_size) - 1) / (fs - header_size) * (fs - header_size)
          - l.length) 0) ∧
    (l.length % (fs - header_size) = 0 → engine_output F = some l) := by
  obtain ⟨hfs, hcase⟩ := generate_frames_inversion l fs cols F hgen
  have hk : 1 ≤ fs - header_size := by
    simp only [header_size] at hfs ⊢
    omega
  have hlpos : 1 ≤ l.length := List.length_pos.mpr hne
  have htpos : 1 ≤ (l.length + (fs - header_size) - 1) / (fs - header_size) :=
    (Nat.one_le_div_iff (by omega)).mpr (by omega)
  rcases hcase with ⟨h0, _⟩ | ⟨hc, _, hFeq⟩
  · omega
  · subst hFeq
    have hmain := engine_output_of_perm l (fs - header_size) cols
      ((l.length + (fs - header_size) - 1) / (fs - header_size)) hk
      (Nat.pos_of_ne_zero hc) htpos rfl _ (List.Perm.refl _)
    refine ⟨hmain, fun hdvd => ?_⟩
    obtain ⟨m, hm⟩ := Nat.dvd_of_mod_eq_zero hdvd
    have htm : (l.length + (fs - header_size) - 1) / (fs - header_size) = m := by
      have harg : l.length + (fs - header_size) - 1 =
          (fs - header_size) * m + (fs - header_size - 1) := by omega
      rw [harg, Nat.mul_add_div (by omega), Nat.div_eq_of_lt (by omega), Nat.add_zero]
    rw [hmain, htm]
    have hzero : m * (fs - header_size) - l.length = 0 := by
      have : m * (fs - header_size) = (fs - header_size) * m := Nat.mul_comm _ _
      omega
    rw [hzero]
    simp

/-- Witness for C1: two bytes, chunk size 2 (the divisible case). -/
theorem C1_round_trip_padded_witness :
    engine_output [[0, 0, 0, 0, 0, 0, 0, 1, 0, 0, 5, 6]] = some [5, 6] :=
  (C1_round_trip_padded [5, 6] 12 1 [[0, 0, 0, 0, 0, 0, 0, 1, 0, 0, 5, 6]]
    (by decide) (by decide)).2 (by decide)

/-! ## C5: order independence of reconstruction -/

/-- Claim C5 (confirmed): feeding any permutation of a complete set of frames
produced by the Chunk Splitter to the Grid Reconstruction Engine yields the
same output as the original order — placement depends only on the `(row, col)`
header fields. -/
theorem C5_order_independence (l : List Nat) (fs cols : Nat)
    (F L : List (List Nat)) (hgen : generate_frames l fs cols = .ok F)
    (hperm : L.Perm F) :
    engine_output L = engine_output F := by
  obtain ⟨hfs, hcase⟩ := generate_frames_inversion l fs cols F hgen
  have hk : 1 ≤ fs - header_size := by
    simp only [header_size] at hfs ⊢
    omega
  rcases hcase with ⟨h0, hFnil⟩ | ⟨hc, _, hFeq⟩
  · subst hFnil
    rw [List.Perm.eq_nil hperm]
  · subst hFeq
    by_cases h1 : 1 ≤ (l.length + (fs - header_size) - 1) / (fs - header_size)
    · rw [engine_output_of_perm l (fs - header_size) cols
        ((l.length + (fs - header_size) - 1) / (fs - header_size)) hk
        (Nat.pos_of_ne_zero hc) h1 rfl L hperm,
        engine_output_of_perm l (fs - header_size) cols
        ((l.length + (fs - header_size) - 1) / (fs - header_size)) hk
        (Nat.pos_of_ne_zero hc) h1 rfl _ (List.Perm.refl _)]
    · have h0 : (l.length + (fs - header_size) - 1) / (fs - header_size) = 0 :=
        Nat.lt_one_iff.mp (Nat.not_le.mp h1)
      rw [h0] at hperm ⊢
      have hL0 : L = [] := List.Perm.eq_nil (by simpa using hperm)
      rw [hL0]
      rfl

/-- Witness for C5: the four frames of `[1, 2, 3, 4]` (chunk size 1, two
columns) fed in reverse order. -/
theorem C5_order_independence_witness :
    engine_output [[0, 3, 0, 1, 0, 1, 0, 4, 0, 0, 4], [0, 2, 0, 1, 0, 0, 0, 4, 0, 0, 3],
        [0, 1, 0, 0, 0, 1, 0, 4, 0, 0, 2], [0, 0, 0, 0, 0, 0, 0, 4, 0, 0, 1]] =
      engine_output [[0, 0, 0, 0, 0, 0, 0, 4, 0, 0, 1], [0, 1, 0, 0, 0, 1, 0, 4, 0, 0, 2],
        [0, 2, 0, 1, 0, 0, 0, 4, 0, 0, 3], [0, 3, 0, 1, 0, 1, 0, 4, 0, 0, 4]] :=
  C5_order_independence [1, 2, 3, 4] 11 2
    [[0, 0, 0, 0, 0, 0, 0, 4, 0, 0, 1], [0, 1, 0, 0, 0, 1, 0, 4, 0, 0, 2],
      [0, 2, 0, 1, 0, 0, 0, 4, 0, 0, 3], [0, 3, 0, 1, 0, 1, 0, 4, 0, 0, 4]]
    [[0, 3, 0, 1, 0, 1, 0, 4, 0, 0, 4], [0, 2, 0, 1, 0, 0, 0, 4, 0, 0, 3],
      [0, 1, 0, 0, 0, 1, 0, 4, 0, 0, 2], [0, 0, 0, 0, 0, 0, 0, 4, 0, 0, 1]]
    (by decide) (by decide)

/-! ## C4: a missing frame aborts the session instead of gap-filling -/

/-- The 12 frames of the 3-row-by-4-column transfer of the bytes
`[1, ..., 12]` with `frame_size = 11` (chunk size 1, `cols = 4`). -/
def c4Frames : List (List Nat) :=
  [[0, 0, 0, 0, 0, 0, 0, 12, 0, 0, 1], [0, 1, 0, 0, 0, 1, 0, 12, 0, 0, 2],
   [0, 2, 0, 0, 0, 2, 0, 12, 0, 0, 3], [0, 3, 0, 0, 0, 3, 0, 12, 0, 0, 4],
   [0, 4, 0, 1, 0, 0, 0, 12, 0, 0, 5], [0, 5, 0, 1, 0, 1, 0, 12, 0, 0, 6],
   [0, 6, 0, 1, 0, 2, 0, 12, 0, 0, 7], [0, 7, 0, 1, 0, 3, 0, 12, 0, 0, 8],
   [0, 8, 0, 2, 0, 0, 0, 12, 0, 0, 9], [0, 9, 0, 2, 0, 1, 0, 12, 0, 0, 10],
   [0, 10, 0, 2, 0, 2, 0, 12, 0, 0, 11], [0, 11, 0, 2, 0, 3, 0, 12, 0, 0, 12]]

theorem c4Frames_generated : generate_frames (List.range' 1 12) 11 4 = .ok c4Frames := by
  decide

/-- Claim C4 (refuted): omitting the frame at position `(1, 1)` from the
12-frame 3-by-4 transfer and ending the stream does not produce the row-major
concatenation with an empty gap — the engine produces no reconstruction at
all, because the completion condition `received_count == expected_total_frames`
(11 vs 12) is never met. -/
theorem C4_counterexample :
    engine_output (c4Frames.eraseIdx 5) ≠
      some [1, 2, 3, 4, 5, 7, 8, 9, 10, 11, 12] := by
  decide

/-- Claim C4 (amended, confirmed): omitting any single frame of the 12-frame
3-by-4 transfer and ending the stream aborts the session as an incomplete
transfer: no reconstruction (and hence no gap substitution or integrity
warning) takes place, with 11 of the expected 12 positions filled. -/
theorem C4_missing_frame_aborts (i : Nat) (hi : i < 12) :
    engine_output (c4Frames.eraseIdx i) = none ∧
    (run_engine initState (c4Frames.eraseIdx i)).frame_grid.length = 11 ∧
    (run_engine initState (c4Frames.eraseIdx i)).total_frames_expected = 12 := by
  revert i
  decide

/-- Witness for C4: omitting frame 3. -/
theorem C4_missing_frame_aborts_witness :
    engine_output (c4Frames.eraseIdx 3) = none :=
  (C4_missing_frame_aborts 3 (by decide)).1

/-! ## C3: slot assignment precedence -/

theorem findSlot_some :
    ∀ (table : List String) (p : Nat → String → Bool) (j : Nat),
      findSlot p table = some j →
      j < table.length ∧ p j (table.getD j "") = true := by
  intro table
  induction table with
  | nil => intro p j h; cases h
  | cons a rest ih =>
    intro p j h
    rw [findSlot] at h
    by_cases hp : p 0 a
    · rw [if_pos hp] at h
      have hj0 : j = 0 := (Option.some.inj h).symm
      subst hj0
      exact ⟨by simp, hp⟩
    · rw [if_neg hp] at h
      cases hrec : findSlot (fun i s => p (i + 1) s) rest with
      | none => rw [hrec] at h; cases h
      | some j' =>
        rw [hrec] at h
        simp only [Option.map_some'] at h
        obtain ⟨hlen, hpj⟩ := ih (fun i s => p (i + 1) s) j' hrec
        have hj := Option.some.inj h
        subst hj
        refine ⟨by simp; omega, ?_⟩
        simpa using hpj

theorem findSlot_none :
    ∀ (table : List String) (p : Nat → String → Bool),
      findSlot p table = none →
      ∀ j, j < table.length → p j (table.getD j "") = false := by
  intro table
  induction table with
  | nil => intro p _ j hj; simp at hj
  | cons a rest ih =>
    intro p h j hj
    rw [findSlot] at h
    by_cases hp : p 0 a
    · rw [if_pos hp] at h; cases h
    · rw [if_neg hp] at h
      have hrest : findSlot (fun i s => p (i + 1) s) rest = none :=
        Option.map_eq_none'.mp h
      cases j with
      | zero => simpa using hp
      | succ j' =>
        have := ih (fun i s => p (i + 1) s) hrest j' (by simp at hj; omega)
        simpa using this

/-- Claim C3 (confirmed): the chosen slot follows the strict precedence of
rules 1-5 of `_update_live_feed_display` — preferred slot when free or its
own, then the currently held slot, then the first free non-reserved slot,
then the first free slot, then slot 0 as last resort — and on an empty
4-slot table with preferences `A ↦ 0, B ↦ 1` the arrivals `A, B, C, D, E`
get slots `0, 1, 2, 3, 0`. -/
theorem C3_slot_assignment_precedence :
    (∀ (prefs : List (String × Nat)) (table : List String) (name : String) (p : Nat),
      prefs.lookup name = some p →
      (table.getD p "" = NA ∨ table.getD p "" = name) →
      choose_slot prefs table name = p) ∧
    (∀ (prefs : List (String × Nat)) (table : List String) (name : String) (i : Nat),
      step1_pref prefs table name = none →
      step2_existing table name = some i → choose_slot prefs table name = i) ∧
    (∀ (prefs : List (String × Nat)) (table : List String) (name : String) (i : Nat),
      step1_pref prefs table name = none → step2_existing table name = none →
      step3_general prefs table = some i → choose_slot prefs table name = i) ∧
    (∀ (prefs : List (String × Nat)) (table : List String) (name : String) (i : Nat),
      step1_pref prefs table name = none → step2_existing table name = none →
      step3_general prefs table = none → step4_anyNA table = some i →
      choose_slot prefs table name = i) ∧
    (∀ (prefs : List (String × Nat)) (table : List String) (name : String),
      step1_pref prefs table name = none → step2_existing table name = none →
      step3_general prefs table = none → step4_anyNA table = none →
      choose_slot prefs table name = 0) ∧
    (run_arrivals [("A", 0), ("B", 1)] (List.replicate 4 NA)
      ["A", "B", "C", "D", "E"]).1 = [0, 1, 2, 3, 0] := by
  refine ⟨?_, ?_, ?_, ?_, ?_, by decide⟩
  · intro prefs table name p hl hcond
    have h1 : step1_pref prefs table name = some p := by
      rw [step1_pref, hl]
      show (if table.getD p "" = NA ∨ table.getD p "" = name then some p else none) = some p
      rw [if_pos hcond]
    simp [choose_slot, h1]
  · intro prefs table name i h1 h2
    simp [choose_slot, h1, h2]
  · intro prefs table name i h1 h2 h3
    simp [choose_slot, h1, h2, h3]
  · intro prefs table name i h1 h2 h3 h4
    simp [choose_slot, h1, h2, h3, h4]
  · intro prefs table name h1 h2 h3 h4
    simp [choose_slot, h1, h2, h3, h4]

/-- Witness for C3: one concrete instance per precedence rule. -/
theorem C3_slot_assignment_precedence_witness :
    choose_slot [("A", 0)] [NA, NA, NA, NA] "A" = 0 ∧
    choose_slot [] ["X", "Y", NA, NA] "Y" = 1 ∧
    choose_slot [("A", 0)] [NA, NA, NA, NA] "C" = 1 ∧
    choose_slot [("A", 0), ("B", 1)] ["X", NA] "C" = 1 ∧
    choose_slot [] ["X", "Y"] "C" = 0 := by
  refine ⟨?_, ?_, ?_, ?_, ?_⟩
  · exact C3_slot_assignment_precedence.1 _ _ _ 0 (by decide) (Or.inl (by decide))
  · exact C3_slot_assignment_precedence.2.1 _ _ _ 1 (by decide) (by decide)
  · exact C3_slot_assignment_precedence.2.2.1 _ _ _ 1 (by decide) (by decide) (by decide)
  · exact C3_slot_assignment_precedence.2.2.2.1 _ _ _ 1 (by decide) (by decide)
      (by decide) (by decide)
  · exact C3_slot_assignment_precedence.2.2.2.2.1 _ _ _ (by decide) (by decide)
      (by decide) (by decide)

/-! ## C9: no identity ever labels two slots -/

/-- Auxiliary invariant: whenever an identity with a configured preferred
slot occupies some other slot, its preferred slot is not `'N/A'` (the
preferred slot was occupied when the identity was placed elsewhere, and a
slot never returns to `'N/A'`). -/
def prefConsistent (prefs : List (String × Nat)) (table : List String) : Prop :=
  ∀ (x : String) (px : Nat), x ≠ NA → prefs.lookup x = some px →
    ∀ q, q < table.length → table.getD q "" = x → q ≠ px →
      table.getD px "" ≠ NA

theorem getD_set (table : List String) (i j : Nat) (v : String) :
    (table.set i v).getD j "" =
      if i = j ∧ i < table.length then v else table.getD j "" := by
  rw [List.getD_eq_getElem?_getD, List.getD_eq_getElem?_getD, List.getElem?_set]
  by_cases h1 : i = j
  · by_cases h2 : i < table.length
    · rw [if_pos h1, if_pos h2, if_pos ⟨h1, h2⟩]
      rfl
    · rw [if_pos h1, if_neg h2, if_neg (by tauto)]
      rw [h1] at h2
      rw [List.getElem?_eq_none (by omega)]
  · rw [if_neg h1, if_neg (by tauto)]

theorem noDoubleSlot_ext (t1 t2 : List String) (hlen : t1.length = t2.length)
    (hget : ∀ j, t1.getD j "" = t2.getD j "") (h : noDoubleSlot t1) :
    noDoubleSlot t2 := by
  intro i hi j hj hna heq
  exact h i (by omega) j (by omega) (by rw [hget i]; exact hna)
    (by rw [hget i, hget j]; exact heq)

theorem prefConsistent_ext (prefs : List (String × Nat)) (t1 t2 : List String)
    (hlen : t1.length = t2.length) (hget : ∀ j, t1.getD j "" = t2.getD j "")
    (h : prefConsistent prefs t1) : prefConsistent prefs t2 := by
  intro x px hx hl q hq hqx hqpx
  rw [← hget px]
  exact h x px hx hl q (by omega) (by rw [hget q]; exact hqx) hqpx

theorem set_same_getD (table : List String) (i : Nat) (v : String)
    (h : table.getD i "" = v) :
    ∀ j, (table.set i v).getD j "" = table.getD j "" := by
  intro j
  rw [getD_set]
  by_cases hij : i = j ∧ i < table.length
  · rw [if_pos hij, ← hij.1]
    exact h.symm
  · rw [if_neg hij]

/-- Re-assigning an identity to a slot it already holds leaves the table
(pointwise) unchanged, so both invariants are preserved. -/
theorem assign_own_preserves (prefs : List (String × Nat)) (table : List String)
    (name : String) (i : Nat) (hocc : table.getD i "" = name)
    (ha : noDoubleSlot table) (hb : prefConsistent prefs table) :
    noDoubleSlot (table.set i name) ∧ prefConsistent prefs (table.set i name) := by
  have hget := set_same_getD table i name hocc
  exact ⟨noDoubleSlot_ext table _ (List.length_set table i name).symm
      (fun j => (hget j).symm) ha,
    prefConsistent_ext prefs table _ (List.length_set table i name).symm
      (fun j => (hget j).symm) hb⟩

/-- Placing an identity that currently occupies no slot into slot `j`
preserves both invariants, provided the identity's preferred slot (if any)
is either `j` itself or currently occupied. -/
theorem assign_fresh_preserves (prefs : List (String × Nat)) (table : List String)
    (name : String) (j : Nat) (hj : j < table.length) (hname : name ≠ NA)
    (hnowhere : ∀ q, q < table.length → table.getD q "" ≠ name)
    (hpx : ∀ px, prefs.lookup name = some px → px = j ∨ table.getD px "" ≠ NA)
    (ha : noDoubleSlot table) (hb : prefConsistent prefs table) :
    noDoubleSlot (table.set j name) ∧ prefConsistent prefs (table.set j name) := by
  have hget : ∀ q, (table.set j name).getD q "" =
      if q = j then name else table.getD q "" := by
    intro q
    rw [getD_set]
    by_cases hq : q = j
    · rw [if_pos ⟨hq.symm, hj⟩, if_pos hq]
    · rw [if_neg (fun hcon => hq hcon.1.symm), if_neg hq]
  constructor
  · intro i1 hi1 i2 hi2 hna heq
    rw [List.length_set] at hi1 hi2
    rw [hget i1] at hna heq
    rw [hget i2] at heq
    by_cases h1 : i1 = j
    · by_cases h2 : i2 = j
      · rw [h1, h2]
      · rw [if_pos h1, if_neg h2] at heq
        exact absurd heq.symm (hnowhere i2 hi2)
    · by_cases h2 : i2 = j
      · rw [if_neg h1, if_pos h2] at heq
        exact absurd heq (hnowhere i1 hi1)
      · rw [if_neg h1] at hna heq
        rw [if_neg h2] at heq
        exact ha i1 hi1 i2 hi2 hna heq
  · intro x px hx hl q hq hqx hqpx
    rw [List.length_set] at hq
    rw [hget q] at hqx
    rw [hget px]
    by_cases hpxj : px = j
    · rw [if_pos hpxj]
      exact hname
    · rw [if_neg hpxj]
      by_cases hqj : q = j
      · rw [if_pos hqj] at hqx
        rcases hpx px (hqx ▸ hl) with heq | hne
        · exact absurd heq hpxj
        · exact hne
      · rw [if_neg hqj] at hqx
        exact hb x px hx hl q hq hqx hqpx

/-- One assignment of `_update_live_feed_display` preserves both invariants
for any arriving identity that is neither the `'N/A'` sentinel nor empty. -/
theorem assign_slot_preserves (prefs : List (String × Nat)) (table : List String)
    (name : String) (hname : name ≠ NA)
    (ha : noDoubleSlot table) (hb : prefConsistent prefs table) :
    noDoubleSlot (assign_slot prefs table name).2 ∧
      prefConsistent prefs (assign_slot prefs table name).2 := by
  show noDoubleSlot (table.set (choose_slot prefs table name) name) ∧
    prefConsistent prefs (table.set (choose_slot prefs table name) name)
  cases hs1 : step1_pref prefs table name with
  | some p =>
    have hch : choose_slot prefs table name = p := by simp [choose_slot, hs1]
    rw [hch]
    rw [step1_pref] at hs1
    cases hl : prefs.lookup name with
    | none => rw [hl] at hs1; cases hs1
    | some p' =>
      rw [hl] at hs1
      have hs1' : (if table.getD p' "" = NA ∨ table.getD p' "" = name
          then some p' else none) = some p := hs1
      by_cases hcond : table.getD p' "" = NA ∨ table.getD p' "" = name
      · rw [if_pos hcond] at hs1'
        have hpp : p' = p := Option.some.inj hs1'
        subst hpp
        rcases hcond with hNA | hOwn
        · have hplen : p' < table.length := by
            by_contra hge
            push_neg at hge
            rw [List.getD_eq_getElem?_getD, List.getElem?_eq_none (by omega)] at hNA
            exact absurd hNA.symm (by decide : NA ≠ "")
          have hnowhere : ∀ q, q < table.length → table.getD q "" ≠ name := by
            intro q hq hqe
            by_cases hqp : q = p'
            · rw [hqp, hNA] at hqe
              exact hname hqe.symm
            · exact hb name p' hname hl q hq hqe hqp hNA
          exact assign_fresh_preserves prefs table name p' hplen hname hnowhere
            (fun px hlx => Or.inl (by rw [hl] at hlx; exact (Option.some.inj hlx).symm))
            ha hb
        · exact assign_own_preserves prefs table name p' hOwn ha hb
      · rw [if_neg hcond] at hs1'
        cases hs1'
  | none =>
    have hs1info : ∀ px, prefs.lookup name = some px →
        table.getD px "" ≠ NA ∧ table.getD px "" ≠ name := by
      intro px hl
      rw [step1_pref, hl] at hs1
      have hs1' : (if table.getD px "" = NA ∨ table.getD px "" = name
          then some px else none) = none := hs1
      by_cases hcond : table.getD px "" = NA ∨ table.getD px "" = name
      · rw [if_pos hcond] at hs1'
        cases hs1'
      · push_neg at hcond
        exact hcond
    cases hs2 : step2_existing table name with
    | some q =>
      have hch : choose_slot prefs table name = q := by simp [choose_slot, hs1, hs2]
      obtain ⟨hqlen, hqp⟩ := findSlot_some table _ q hs2
      have hocc : table.getD q "" = name := by simpa using hqp
      rw [hch]
      exact assign_own_preserves prefs table name q hocc ha hb
    | none =>
      have hnowhere : ∀ q, q < table.length → table.getD q "" ≠ name := by
        intro q hq hqe
        have hfalse := findSlot_none table _ hs2 q hq
        rw [hqe] at hfalse
        simp at hfalse
      have hpxlater : ∀ px, prefs.lookup name = some px →
          table.getD px "" ≠ NA := fun px hl => (hs1info px hl).1
      cases hs3 : step3_general prefs table with
      | some j =>
        have hch : choose_slot prefs table name = j := by
          simp [choose_slot, hs1, hs2, hs3]
        obtain ⟨hjlen, _⟩ := findSlot_some table _ j hs3
        rw [hch]
        exact assign_fresh_preserves prefs table name j hjlen hname hnowhere
          (fun px hl => Or.inr (hpxlater px hl)) ha hb
      | none =>
        cases hs4 : step4_anyNA table with
        | some j =>
          have hch : choose_slot prefs table name = j := by
            simp [choose_slot, hs1, hs2, hs3, hs4]
          obtain ⟨hjlen, _⟩ := findSlot_some table _ j hs4
          rw [hch]
          exact assign_fresh_preserves prefs table name j hjlen hname hnowhere
            (fun px hl => Or.inr (hpxlater px hl)) ha hb
        | none =>
          have hch : choose_slot prefs table name = 0 := by
            simp [choose_slot, hs1, hs2, hs3, hs4]
          rw [hch]
          cases htable : table with
          | nil =>
            rw [htable] at ha hb
            exact ⟨ha, hb⟩
          | cons a rest =>
            rw [← htable]
            exact assign_fresh_preserves prefs table name 0
              (by rw [htable]; simp) hname hnowhere
              (fun px hl => Or.inr (hpxlater px hl)) ha hb

theorem run_arrivals_snd (prefs : List (String × Nat)) :
    ∀ (names : List String) (acc : List Nat) (table : List String),
      (names.foldl (fun acc name =>
        let r := assign_slot prefs acc.2 name
        (acc.1 ++ [r.1], r.2)) (acc, table)).2 =
      names.foldl (fun t n => (assign_slot prefs t n).2) table := by
  intro names
  induction names with
  | nil => intro acc table; rfl
  | cons n rest ih =>
    intro acc table
    exact ih (acc ++ [(assign_slot prefs table n).1]) (assign_slot prefs table n).2

/-- Claim C9 (confirmed): starting from a table with all slots `'N/A'`, after
any sequence of slot assignments no identity is ever recorded as the assigned
identity of two distinct slots (for real identities, i.e. any identity other
than the `'N/A'` sentinel itself). -/
theorem C9_no_identity_in_two_slots (prefs : List (String × Nat)) (N : Nat)
    (names : List String) (h : ∀ n ∈ names, n ≠ NA) :
    noDoubleSlot (run_arrivals prefs (List.replicate N NA) names).2 := by
  rw [run_arrivals, run_arrivals_snd prefs names [] (List.replicate N NA)]
  have hrep : ∀ i, i < N → (List.replicate N NA).getD i "" = NA := by
    intro i hi
    rw [List.getD_eq_getElem?_getD, List.getElem?_replicate, if_pos hi]
    rfl
  have hstart1 : noDoubleSlot (List.replicate N NA) := by
    intro i hi j hj hna _
    rw [List.length_replicate] at hi
    rw [hrep i hi] at hna
    exact absurd rfl hna
  have hstart2 : prefConsistent prefs (List.replicate N NA) := by
    intro x px hx _ q hq hqx _
    rw [List.length_replicate] at hq
    rw [hrep q hq] at hqx
    exact absurd hqx.symm hx
  have main : ∀ (ns : List String) (t : List String),
      (∀ n ∈ ns, n ≠ NA) →
      noDoubleSlot t ∧ prefConsistent prefs t →
      noDoubleSlot (ns.foldl (fun t n => (assign_slot prefs t n).2) t) ∧
      prefConsistent prefs (ns.foldl (fun t n => (assign_slot prefs t n).2) t) := by
    intro ns
    induction ns with
    | nil => intro t _ hInv; exact hInv
    | cons n rest ih =>
      intro t hall hInv
      exact ih (assign_slot prefs t n).2 (fun m hm => hall m (by simp [hm]))
        (assign_slot_preserves prefs t n (hall n (by simp)) hInv.1 hInv.2)
  exact (main names (List.replicate N NA) h ⟨hstart1, hstart2⟩).1

/-- Witness for C9: the C3 scenario's five arrivals on a 4-slot table. -/
theorem C9_no_identity_in_two_slots_witness :
    noDoubleSlot (run_arrivals [("A", 0), ("B", 1)] (List.replicate 4 NA)
      ["A", "B", "C", "D", "E"]).2 :=
  C9_no_identity_in_two_slots [("A", 0), ("B", 1)] 4 ["A", "B", "C", "D", "E"]
    (by decide)
